import Mathlib

/-!
Shallow embedding of the contribution aggregation engine of `src/app.py`
(club-fundraising tracker).  Rows of the four worksheets are modelled as
structures; the pandas pipeline (sort_values / drop_duplicates / merge /
groupby) is modelled by explicit list operations.  `sort_values` is modelled
by the stable `List.insertionSort`; timestamps and dates are compared by the
lexicographic order of their string representation, as the code does for
timestamps (dates with a uniform `YYYY-MM-DD` format order the same way as
the parsed dates produced by `pd.to_datetime`).
-/

namespace JefOtokogi

open List

/-- One transaction row (worksheet `transactions`), after the numeric coercion
of `load_data` (`number` and `amount` are numeric). -/
structure Trans where
  date : String
  season : String
  match_id : String
  name : String
  number : Int
  amount : Int
  timestamp : String
deriving DecidableEq, Repr

/-- One schedule row (worksheet `schedule`).  The Python column `section` is
called `sect` here because `section` is a Lean keyword. -/
structure Sched where
  season : String
  sect : String
  date : String
  opponent : String
  type : String
  stadium : String
deriving DecidableEq, Repr

/-- One member row (worksheet `members`). -/
structure Member where
  name : String
  is_active : String
  display_order : Int
  is_ranking_target : String
deriving DecidableEq, Repr

/-- One rate-table row as seen by `calculate_amount`: each field is the result
of Python's `int(...)` on the stored cell, `none` when the conversion raises
(non-numeric cell). -/
structure RateRow where
  min_rank : Option Int
  max_rank : Option Int
  amount : Option Int
deriving DecidableEq, Repr

/-- Function `calculate_amount` of `src/app.py` (lines 69-80): `0 ↦ 0`; otherwise scan
the rate rows in stored order, skip rows whose `int(...)` conversions fail,
return the `amount` of the first row whose closed interval contains `number`,
and fall back to `1000`. -/
def calculate_amount (number : Int) (rates : List RateRow) : Int :=
  if number = 0 then 0 else scan rates
where
  /-- The `for ... in df_rates.iterrows()` loop body. -/
  scan : List RateRow → Int
    | [] => 1000
    | r :: rs =>
      match r.min_rank, r.max_rank, r.amount with
      | some mn, some mx, some a => if mn ≤ number ∧ number ≤ mx then a else scan rs
      | _, _, _ => scan rs

/-- The result of scanning the rate table for the first well-formed row whose
interval contains `number` (formalising the spec's "first rate entry in stored
table order whose interval contains n, malformed rows skipped"). -/
def rateMatch (number : Int) (r : RateRow) : Option Int :=
  match r.min_rank, r.max_rank, r.amount with
  | some mn, some mx, some a => if mn ≤ number ∧ number ≤ mx then some a else none
  | _, _, _ => none

/-- Pandas `drop_duplicates(subset=key, keep='last')`: keep a row iff no
later row has the same key; the surviving rows keep their relative order. -/
def dedupKeepLast {α κ : Type} [DecidableEq κ] (key : α → κ) : List α → List α
  | [] => []
  | x :: xs =>
    if ∃ y ∈ xs, key y = key x then dedupKeepLast key xs
    else x :: dedupKeepLast key xs

/-- A `sort_values(...)` followed by `drop_duplicates(subset=key, keep='last')`,
the canonicalization pattern of lines 227 and 253 of `src/app.py`. -/
def canon {α κ : Type} [DecidableEq κ] (key : α → κ) (r : α → α → Prop)
    [DecidableRel r] (l : List α) : List α :=
  dedupKeepLast key (List.insertionSort r l)

/-- Lexicographic (code-point) order on strings, the order pandas uses to
compare the stored `"YYYY-MM-DD HH:MM:SS"` text.  Stated on `toList` so that
it evaluates by kernel reduction; it agrees with `String`'s own `≤` by
`String.le_iff_toList_le`. -/
def strLe (a b : String) : Prop := a.toList ≤ b.toList

/-- Strict version of `strLe`. -/
def strLt (a b : String) : Prop := a.toList < b.toList

instance : DecidableRel strLe := fun a b => inferInstanceAs (Decidable (a.toList ≤ b.toList))

instance : DecidableRel strLt := fun a b => inferInstanceAs (Decidable (a.toList < b.toList))

theorem strLe_antisymm {a b : String} (h1 : strLe a b) (h2 : strLe b a) : a = b :=
  String.toList_inj.1 (le_antisymm h1 h2)

/-- Comparison used by `sort_values('timestamp')` (line 227). -/
def tsLe (a b : Trans) : Prop := strLe a.timestamp b.timestamp

instance : DecidableRel tsLe := fun a b =>
  inferInstanceAs (Decidable (strLe a.timestamp b.timestamp))

instance : IsTotal Trans tsLe := ⟨fun a b => le_total a.timestamp.toList b.timestamp.toList⟩

instance : IsTrans Trans tsLe := ⟨fun _ _ _ h1 h2 => le_trans h1 h2⟩

instance : IsRefl Trans tsLe := ⟨fun a => le_refl a.timestamp.toList⟩

/-- The dedup key `['season', 'match_id', 'name']`. -/
def keyT (t : Trans) : String × String × String := (t.season, t.match_id, t.name)

/-- Line 227: `current_trans.sort_values('timestamp').drop_duplicates(
subset=['season','match_id','name'], keep='last')`. -/
def df_latest (ts : List Trans) : List Trans := canon keyT tsLe ts

/-- Line 230: names of the members whose `is_ranking_target` is the literal
string `"TRUE"`. -/
def target_members (mem : List Member) : List String :=
  (mem.filter (fun m => m.is_ranking_target = "TRUE")).map (·.name)

/-- Line 231: the canonical rows restricted to ranking-eligible members. -/
def df_latest_ranked (ts : List Trans) (mem : List Member) : List Trans :=
  (df_latest ts).filter (fun t => t.name ∈ target_members mem)

/-- Descending order on the `amount` component, used by
`sort_values('amount', ascending=False)` (line 234). -/
def amtGe (a b : String × Int) : Prop := b.2 ≤ a.2

instance : DecidableRel amtGe := fun a b => inferInstanceAs (Decidable (b.2 ≤ a.2))

instance : IsTotal (String × Int) amtGe := ⟨fun a b => le_total b.2 a.2⟩

instance : IsTrans (String × Int) amtGe := ⟨fun _ _ _ h1 h2 => le_trans h2 h1⟩

/-- Line 234: `groupby('name')['amount'].sum()` then sort descending by
amount; one `(name, total)` pair per distinct name. -/
def ranking (l : List Trans) : List (String × Int) :=
  List.insertionSort amtGe
    (((l.map (·.name)).dedup).map
      (fun n => (n, ((l.filter (fun t => t.name = n)).map (·.amount)).sum)))

/-- Line 235: `total = ranking['amount'].sum()`, the displayed grand total. -/
def rankingTotal (ts : List Trans) (mem : List Member) : Int :=
  ((ranking (df_latest_ranked ts mem)).map (·.2)).sum

/-- A schedule-enriched transaction row (the columns of `merged_trans` that
the dashboard uses). -/
structure MTrans where
  date : String
  season : String
  match_id : String
  name : String
  number : Int
  amount : Int
  timestamp : String
  opponent : String
deriving DecidableEq, Repr

/-- The join condition of line 204: `(season, match_id) = (season, section)`,
both sides already strings. -/
def schedMatch (t : Trans) (s : Sched) : Prop := s.season = t.season ∧ s.sect = t.match_id

instance : ∀ t s, Decidable (schedMatch t s) := fun t s =>
  inferInstanceAs (Decidable (s.season = t.season ∧ s.sect = t.match_id))

/-- The rows the left merge of line 204 produces for one transaction row,
after `opponent.fillna('-')` (line 207) and
`date = date_sched.combine_first(date)` (line 210): with no matching schedule
row the transaction keeps its own `date` and gets `opponent = "-"`; each
matching schedule row contributes one output row whose `date` is the
schedule's and whose `opponent` is the schedule's. -/
def mergeRow (t : Trans) (sl : List Sched) : List MTrans :=
  if sl.filter (fun s => schedMatch t s) = [] then
    [⟨t.date, t.season, t.match_id, t.name, t.number, t.amount, t.timestamp, "-"⟩]
  else
    (sl.filter (fun s => schedMatch t s)).map (fun s =>
      ⟨s.date, t.season, t.match_id, t.name, t.number, t.amount, t.timestamp, s.opponent⟩)

/-- Lines 187-210: `merged_trans`, the left join of the transactions with the
schedule, in left order. -/
def merged_trans (ts : List Trans) (sl : List Sched) : List MTrans :=
  ts.flatMap (fun t => mergeRow t sl)

/-- Comparison used by `sort_values(['date', 'timestamp'])` (line 253):
lexicographic on `(date, timestamp)`. -/
def dtLe (a b : MTrans) : Prop :=
  strLt a.date b.date ∨ (a.date = b.date ∧ strLe a.timestamp b.timestamp)

instance : DecidableRel dtLe := fun a b =>
  inferInstanceAs
    (Decidable (strLt a.date b.date ∨ (a.date = b.date ∧ strLe a.timestamp b.timestamp)))

instance : IsTotal MTrans dtLe := by
  constructor
  intro a b
  rcases lt_trichotomy a.date.toList b.date.toList with h | h | h
  · exact Or.inl (Or.inl h)
  · have he : a.date = b.date := String.toList_inj.1 h
    rcases le_total a.timestamp.toList b.timestamp.toList with h2 | h2
    · exact Or.inl (Or.inr ⟨he, h2⟩)
    · exact Or.inr (Or.inr ⟨he.symm, h2⟩)
  · exact Or.inr (Or.inl h)

instance : IsTrans MTrans dtLe := by
  constructor
  intro a b c h1 h2
  rcases h1 with h1 | ⟨e1, t1⟩
  · rcases h2 with h2 | ⟨e2, _⟩
    · exact Or.inl (lt_trans h1 h2)
    · exact Or.inl (show strLt a.date c.date from e2 ▸ h1)
  · rcases h2 with h2 | ⟨e2, t2⟩
    · exact Or.inl (show strLt a.date c.date from e1 ▸ h2)
    · exact Or.inr ⟨e1.trans e2, le_trans t1 t2⟩

instance : IsRefl MTrans dtLe := ⟨fun a => Or.inr ⟨rfl, le_refl a.timestamp.toList⟩⟩

/-- The dedup key of line 253, on enriched rows. -/
def keyM (r : MTrans) : String × String × String := (r.season, r.match_id, r.name)

/-- Lines 253-254: `merged_trans.sort_values(['date','timestamp'])
.drop_duplicates(subset=['season','match_id','name'], keep='last')` restricted
to ranking-eligible members. -/
def df_period_line (ts : List Trans) (sl : List Sched) (mem : List Member) : List MTrans :=
  (canon keyM dtLe (merged_trans ts sl)).filter (fun r => r.name ∈ target_members mem)

/-- Line 276: `df_period_line[(number > 0) & (number != 9999)]`. -/
def df_valid_num (ts : List Trans) (sl : List Sched) (mem : List Member) : List MTrans :=
  (df_period_line ts sl mem).filter (fun r => 0 < r.number ∧ r.number ≠ 9999)

/-- Ascending order on `number`, used by `sort_values('number')` (line 289). -/
def numLe (a b : MTrans) : Prop := a.number ≤ b.number

instance : DecidableRel numLe := fun a b => inferInstanceAs (Decidable (a.number ≤ b.number))

instance : IsTotal MTrans numLe := ⟨fun a b => le_total a.number b.number⟩

instance : IsTrans MTrans numLe := ⟨fun _ _ _ h1 h2 => le_trans h1 h2⟩

/-- Descending order on `number` (`ascending=False`, line 303). -/
def numGe (a b : MTrans) : Prop := b.number ≤ a.number

instance : DecidableRel numGe := fun a b => inferInstanceAs (Decidable (b.number ≤ a.number))

instance : IsTotal MTrans numGe := ⟨fun a b => le_total b.number a.number⟩

instance : IsTrans MTrans numGe := ⟨fun _ _ _ h1 h2 => le_trans h2 h1⟩

/-- Line 289: `df_valid_num.sort_values('number', ascending=True).head(5)`. -/
def df_best (ts : List Trans) (sl : List Sched) (mem : List Member) : List MTrans :=
  (List.insertionSort numLe (df_valid_num ts sl mem)).take 5

/-- Line 303: `df_valid_num.sort_values('number', ascending=False).head(5)`. -/
def df_worst (ts : List Trans) (sl : List Sched) (mem : List Member) : List MTrans :=
  (List.insertionSort numGe (df_valid_num ts sl mem)).take 5

/-- Lines 340-344: the number of `number == 9999` rows of `df_period_line`
carrying a given name — the missed-draw count `value_counts` reports for that
name (a name with no such row is simply absent from the table, count `0`). -/
def missedCount (ts : List Trans) (sl : List Sched) (mem : List Member) (n : String) : Nat :=
  (((df_period_line ts sl mem).filter (fun r => r.number = 9999)).filter
    (fun r => r.name = n)).length

/-- Pandas `Series.cumsum` over a list of amounts, with an explicit
accumulator. -/
def runningSums (acc : Int) : List Int → List Int
  | [] => []
  | a :: as => (acc + a) :: runningSums (acc + a) as

/-- Line 257: the per-member cumulative series
`df_period_line.groupby('name')['amount'].cumsum()` — the running sums of the
member's amounts in `df_period_line` row order. -/
def cumulative_amount (ts : List Trans) (sl : List Sched) (mem : List Member)
    (n : String) : List Int :=
  runningSums 0 (((df_period_line ts sl mem).filter (fun r => r.name = n)).map (·.amount))

/-! ### Generic lemmas about `sort_values` + `drop_duplicates(keep='last')` -/

section CanonLemmas

variable {α κ : Type} [DecidableEq κ]

theorem dedupKeepLast_sublist (key : α → κ) :
    ∀ l : List α, dedupKeepLast key l <+ l
  | [] => List.Sublist.refl []
  | x :: xs => by
    rw [dedupKeepLast]
    by_cases h : ∃ y ∈ xs, key y = key x
    · rw [if_pos h]
      exact (dedupKeepLast_sublist key xs).cons x
    · rw [if_neg h]
      exact (dedupKeepLast_sublist key xs).cons₂ x

theorem getLast?_cons_of_ne_nil {l : List α} (h : l ≠ []) (a : α) :
    (a :: l).getLast? = l.getLast? := by
  cases l with
  | nil => exact absurd rfl h
  | cons b t => exact List.getLast?_cons_cons

theorem dedupKeepLast_filter_key (key : α → κ) (k : κ) :
    ∀ l : List α, (dedupKeepLast key l).filter (fun x => key x = k)
      = ((l.filter (fun x => key x = k)).getLast?).toList
  | [] => rfl
  | x :: xs => by
    rw [dedupKeepLast]
    by_cases h : ∃ y ∈ xs, key y = key x
    · rw [if_pos h]
      by_cases hk : key x = k
      · have hne : xs.filter (fun y => key y = k) ≠ [] := by
          obtain ⟨y, hy, hyx⟩ := h
          intro hnil
          rw [List.filter_eq_nil_iff] at hnil
          exact hnil y hy (by simp [hyx, hk])
        rw [dedupKeepLast_filter_key key k xs]
        rw [List.filter_cons_of_pos (by simp [hk]), getLast?_cons_of_ne_nil hne]
      · rw [dedupKeepLast_filter_key key k xs]
        rw [List.filter_cons_of_neg (by simp [hk])]
    · rw [if_neg h]
      by_cases hk : key x = k
      · have hnil : xs.filter (fun y => key y = k) = [] := by
          rw [List.filter_eq_nil_iff]
          intro y hy hyk
          exact h ⟨y, hy, by simpa [hk] using hyk⟩
        have hnil2 : (dedupKeepLast key xs).filter (fun y => key y = k) = [] := by
          rw [dedupKeepLast_filter_key key k xs, hnil]
          rfl
        rw [List.filter_cons_of_pos (by simp [hk]), List.filter_cons_of_pos (by simp [hk])]
        rw [hnil2, hnil]
        rfl
      · rw [List.filter_cons_of_neg (by simp [hk]), List.filter_cons_of_neg (by simp [hk])]
        exact dedupKeepLast_filter_key key k xs

theorem pairwise_key_dedupKeepLast (key : α → κ) :
    ∀ l : List α, (dedupKeepLast key l).Pairwise (fun a b => key a ≠ key b)
  | [] => List.Pairwise.nil
  | x :: xs => by
    rw [dedupKeepLast]
    by_cases h : ∃ y ∈ xs, key y = key x
    · rw [if_pos h]
      exact pairwise_key_dedupKeepLast key xs
    · rw [if_neg h]
      refine List.Pairwise.cons ?_ (pairwise_key_dedupKeepLast key xs)
      intro y hy hxy
      exact h ⟨y, (dedupKeepLast_sublist key xs).subset hy, hxy.symm⟩

theorem dedupKeepLast_eq_self (key : α → κ) :
    ∀ l : List α, l.Pairwise (fun a b => key a ≠ key b) → dedupKeepLast key l = l
  | [], _ => rfl
  | x :: xs, hp => by
    rw [dedupKeepLast]
    have h : ¬ ∃ y ∈ xs, key y = key x := by
      rintro ⟨y, hy, hyx⟩
      exact (List.pairwise_cons.1 hp).1 y hy hyx.symm
    rw [if_neg h, dedupKeepLast_eq_self key xs (List.pairwise_cons.1 hp).2]

theorem sorted_getLast?_rel (r : α → α → Prop) [IsRefl α r] [IsTrans α r] :
    ∀ {l : List α} {m : α}, l.Sorted r → l.getLast? = some m → ∀ y ∈ l, r y m
  | [], _, _, h, _ => by simp at h
  | [a], m, _, h, y => by
    simp only [List.getLast?_singleton, Option.some.injEq] at h
    subst h
    intro hy
    rw [List.mem_singleton] at hy
    subst hy
    exact refl_of r y
  | a :: b :: t, m, hs, h, y => by
    rw [List.getLast?_cons_cons] at h
    intro hy
    rcases List.mem_cons.1 hy with hya | hyt
    · subst hya
      have hm : m ∈ b :: t := List.mem_of_getLast?_eq_some h
      exact (List.pairwise_cons.1 hs).1 m hm
    · exact sorted_getLast?_rel r (List.pairwise_cons.1 hs).2 h y hyt

variable (key : α → κ) (r : α → α → Prop) [DecidableRel r]

theorem canon_subperm (l : List α) : canon key r l <+~ l :=
  List.Subperm.trans (dedupKeepLast_sublist key _).subperm (List.perm_insertionSort r l).subperm

theorem mem_of_mem_canon {l : List α} {a : α} (h : a ∈ canon key r l) : a ∈ l :=
  (canon_subperm key r l).subset h

theorem pairwise_key_canon (l : List α) :
    (canon key r l).Pairwise (fun a b => key a ≠ key b) :=
  pairwise_key_dedupKeepLast key _

theorem nodup_canon (l : List α) : (canon key r l).Nodup :=
  (pairwise_key_canon key r l).imp (fun h heq => h (congrArg key heq))

variable [IsTotal α r] [IsTrans α r]

theorem canon_sorted (l : List α) : (canon key r l).Sorted r :=
  List.Pairwise.sublist (dedupKeepLast_sublist key _) (List.sorted_insertionSort r l)

theorem canon_idem (l : List α) : canon key r (canon key r l) = canon key r l := by
  show dedupKeepLast key (List.insertionSort r (canon key r l)) = canon key r l
  rw [(canon_sorted key r l).insertionSort_eq]
  exact dedupKeepLast_eq_self key _ (pairwise_key_canon key r l)

variable [IsRefl α r]

theorem canon_filter_key {l : List α} {k : κ} (hk : ∃ x ∈ l, key x = k) :
    ∃ m, (canon key r l).filter (fun x => key x = k) = [m] ∧ m ∈ l ∧ key m = k ∧
      ∀ y ∈ l, key y = k → r y m := by
  obtain ⟨x, hx, hxk⟩ := hk
  have hperm : (List.insertionSort r l).filter (fun x => key x = k)
      ~ l.filter (fun x => key x = k) := (List.perm_insertionSort r l).filter _
  have hxmem : x ∈ l.filter (fun x => key x = k) := List.mem_filter.2 ⟨hx, by simp [hxk]⟩
  have hne : (List.insertionSort r l).filter (fun x => key x = k) ≠ [] := by
    intro hnil
    rw [hnil] at hperm
    rw [hperm.symm.eq_nil] at hxmem
    simp at hxmem
  obtain ⟨m, hm⟩ := Option.isSome_iff_exists.1 (List.getLast?_isSome.2 hne)
  have hmf : m ∈ (List.insertionSort r l).filter (fun x => key x = k) :=
    List.mem_of_getLast?_eq_some hm
  have hmlf : m ∈ l.filter (fun x => key x = k) := hperm.subset hmf
  refine ⟨m, ?_, (List.mem_filter.1 hmlf).1, by simpa using (List.mem_filter.1 hmlf).2, ?_⟩
  · show (dedupKeepLast key (List.insertionSort r l)).filter (fun x => key x = k) = [m]
    rw [dedupKeepLast_filter_key key k (List.insertionSort r l), hm]
    rfl
  · intro y hy hyk
    have hyf : y ∈ (List.insertionSort r l).filter (fun x => key x = k) :=
      hperm.mem_iff.2 (List.mem_filter.2 ⟨hy, by simp [hyk]⟩)
    exact sorted_getLast?_rel r
      (List.Pairwise.filter _ (List.sorted_insertionSort r l)) hm y hyf

theorem mem_canon_iff {l : List α}
    (hdet : ∀ x ∈ l, ∀ y ∈ l, key x = key y → r x y → r y x → x = y) (a : α) :
    a ∈ canon key r l ↔ a ∈ l ∧ ∀ y ∈ l, key y = key a → r y a := by
  constructor
  · intro ha
    have hal : a ∈ l := mem_of_mem_canon key r ha
    obtain ⟨m, hfil, hml, hmk, hmax⟩ :=
      canon_filter_key key r (⟨a, hal, rfl⟩ : ∃ x ∈ l, key x = key a)
    have ham : a ∈ (canon key r l).filter (fun x => key x = key a) :=
      List.mem_filter.2 ⟨ha, by simp⟩
    rw [hfil, List.mem_singleton] at ham
    subst ham
    exact ⟨hal, hmax⟩
  · rintro ⟨hal, hamax⟩
    obtain ⟨m, hfil, hml, hmk, hmax⟩ :=
      canon_filter_key key r (⟨a, hal, rfl⟩ : ∃ x ∈ l, key x = key a)
    have ham : a = m := hdet a hal m hml hmk.symm (hmax a hal rfl) (hamax m hml hmk)
    subst ham
    have : a ∈ (canon key r l).filter (fun x => key x = key a) := by
      rw [hfil]
      exact List.mem_singleton_self a
    exact (List.mem_filter.1 this).1

end CanonLemmas

/-! ### Helper lemmas about the rate scan and grouped sums -/

theorem scan_eq_findSome? (n : Int) : ∀ rs : List RateRow,
    calculate_amount.scan n rs = ((rs.findSome? (rateMatch n)).getD 1000)
  | [] => rfl
  | ⟨mno, mxo, ao⟩ :: rs => by
    cases mno <;> cases mxo <;> cases ao <;>
      simp only [calculate_amount.scan, rateMatch, List.findSome?_cons] <;>
      first
        | exact scan_eq_findSome? n rs
        | (split <;> simp [scan_eq_findSome? n rs])

theorem sum_filter_add_sum_filter_not (p : Trans → Bool) :
    ∀ l : List Trans,
      ((l.filter p).map (·.amount)).sum + ((l.filter (fun a => ! p a)).map (·.amount)).sum
        = (l.map (·.amount)).sum
  | [] => rfl
  | a :: l => by
    by_cases h : p a <;>
      simp [List.filter_cons, h, ← sum_filter_add_sum_filter_not p l] <;> ring

theorem sum_over_names :
    ∀ (ks : List String) (l : List Trans), ks.Nodup → (∀ t ∈ l, t.name ∈ ks) →
      (ks.map (fun n => ((l.filter (fun t => t.name = n)).map (·.amount)).sum)).sum
        = (l.map (·.amount)).sum
  | [], l, _, hcov => by
    have hl : l = [] := by
      cases l with
      | nil => rfl
      | cons a l => exact absurd (hcov a (List.mem_cons_self a l)) (List.not_mem_nil _)
    subst hl
    rfl
  | k :: ks, l, hnd, hcov => by
    have hk : k ∉ ks := (List.nodup_cons.1 hnd).1
    have htail :
        (ks.map (fun n => ((l.filter (fun t => t.name = n)).map (·.amount)).sum)).sum
          = (ks.map (fun n =>
              (((l.filter (fun t => ! (t.name = k))).filter
                (fun t => t.name = n)).map (·.amount)).sum)).sum := by
      refine congrArg List.sum (List.map_congr_left ?_)
      intro n hn
      have hnk : n ≠ k := fun h => hk (h ▸ hn)
      have : (l.filter (fun t => ! (t.name = k))).filter (fun t => t.name = n)
          = l.filter (fun t => t.name = n) := by
        rw [List.filter_filter]
        refine List.filter_congr ?_
        intro t _
        by_cases ht : t.name = n
        · simp [ht, hnk]
        · simp [ht]
      rw [this]
    have hcov' : ∀ t ∈ l.filter (fun t => ! (t.name = k)), t.name ∈ ks := by
      intro t ht
      have h1 := (List.mem_filter.1 ht).1
      have h2 := (List.mem_filter.1 ht).2
      rcases List.mem_cons.1 (hcov t h1) with h | h
      · simp [h] at h2
      · exact h
    rw [List.map_cons, List.sum_cons, htail,
      sum_over_names ks (l.filter (fun t => ! (t.name = k))) (List.nodup_cons.1 hnd).2 hcov']
    exact sum_filter_add_sum_filter_not (fun t => t.name = k) l

theorem grand_total_eq (l : List Trans) :
    ((ranking l).map (·.2)).sum = (l.map (·.amount)).sum := by
  unfold ranking
  rw [((List.perm_insertionSort amtGe _).map (·.2)).sum_eq, List.map_map]
  refine sum_over_names _ l (List.nodup_dedup _) ?_
  intro t ht
  exact List.mem_dedup.2 (List.mem_map.2 ⟨t, ht, rfl⟩)

/-! ### Claim C1: amount resolution -/

/-- Claim C1: `calculate_amount(0, rates)` is `0` for every rate table, and for
`1 ≤ n ≤ 9998` the result is the amount of the first rate row in stored order
whose closed interval contains `n` — rows with a non-numeric bound or amount
being skipped — and `1000` when no row matches (`List.findSome? (rateMatch n)`
is exactly that first-match scan). -/
theorem claim_C1_amount_resolution (rates : List RateRow) (n : Int)
    (h1 : 1 ≤ n) (h2 : n ≤ 9998) :
    calculate_amount 0 rates = 0 ∧
    calculate_amount n rates = (rates.findSome? (rateMatch n)).getD 1000 := by
  constructor
  · rfl
  · have hne : n ≠ 0 := by omega
    rw [calculate_amount, if_neg hne]
    exact scan_eq_findSome? n rates

/-- Concrete check of C1: rate table with a malformed first row; `n = 30`
falls in the second row. -/
theorem claim_C1_witness :
    (1 : Int) ≤ 30 ∧ (30 : Int) ≤ 9998 ∧
    (calculate_amount 0 [⟨none, some 10, some 7777⟩, ⟨some 11, some 50, some 2000⟩] = 0 ∧
      calculate_amount 30 [⟨none, some 10, some 7777⟩, ⟨some 11, some 50, some 2000⟩]
        = (([⟨none, some 10, some 7777⟩, ⟨some 11, some 50, some 2000⟩] :
            List RateRow).findSome? (rateMatch 30)).getD 1000) ∧
    calculate_amount 30 [⟨none, some 10, some 7777⟩, ⟨some 11, some 50, some 2000⟩] = 2000 :=
  ⟨by decide, by decide,
    claim_C1_amount_resolution _ 30 (by decide) (by decide), by decide⟩

/-! ### Claim C3: ranking grand total -/

/-- Claim C3 as frozen is false on the code: when two rows share the same
`(season, match_id, name)` key and the same timestamp but carry different
amounts, the surviving row — hence the displayed grand total — depends on the
order of the input rows. -/
theorem claim_C3_counterexample :
    ([⟨"d", "s", "m", "a", 1, 1, "t"⟩, ⟨"d", "s", "m", "a", 1, 2, "t"⟩] : List Trans)
      ~ [⟨"d", "s", "m", "a", 1, 2, "t"⟩, ⟨"d", "s", "m", "a", 1, 1, "t"⟩] ∧
    rankingTotal [⟨"d", "s", "m", "a", 1, 1, "t"⟩, ⟨"d", "s", "m", "a", 1, 2, "t"⟩]
        [⟨"a", "TRUE", 1, "TRUE"⟩] ≠
      rankingTotal [⟨"d", "s", "m", "a", 1, 2, "t"⟩, ⟨"d", "s", "m", "a", 1, 1, "t"⟩]
        [⟨"a", "TRUE", 1, "TRUE"⟩] :=
  ⟨List.Perm.swap _ _ _, by decide⟩

/-- Claim C3 (amended): the displayed grand total equals the sum of the
amounts of the canonicalized rows whose member is ranking-eligible, and —
provided no two distinct rows of the same `(season, match_id, name)` key share
a timestamp — the total is unchanged under any permutation of the input
rows. -/
theorem claim_C3_ranking_total (ts ts' : List Trans) (mem : List Member)
    (hdet : ∀ x ∈ ts, ∀ y ∈ ts, keyT x = keyT y → x.timestamp = y.timestamp → x = y)
    (hperm : ts ~ ts') :
    rankingTotal ts mem = ((df_latest_ranked ts mem).map (·.amount)).sum ∧
    rankingTotal ts mem = rankingTotal ts' mem := by
  constructor
  · exact grand_total_eq (df_latest_ranked ts mem)
  · have hdet2 : ∀ x ∈ ts, ∀ y ∈ ts, keyT x = keyT y → tsLe x y → tsLe y x → x = y :=
      fun x hx y hy hk h1 h2 => hdet x hx y hy hk (strLe_antisymm h1 h2)
    have hdet2' : ∀ x ∈ ts', ∀ y ∈ ts', keyT x = keyT y → tsLe x y → tsLe y x → x = y :=
      fun x hx y hy hk h1 h2 =>
        hdet x (hperm.mem_iff.2 hx) y (hperm.mem_iff.2 hy) hk (strLe_antisymm h1 h2)
    have hiff : ∀ a, a ∈ df_latest ts ↔ a ∈ df_latest ts' := by
      intro a
      rw [show df_latest ts = canon keyT tsLe ts from rfl, mem_canon_iff keyT tsLe hdet2 a,
        show df_latest ts' = canon keyT tsLe ts' from rfl, mem_canon_iff keyT tsLe hdet2' a]
      constructor
      · rintro ⟨h1, h2⟩
        exact ⟨hperm.mem_iff.1 h1, fun y hy => h2 y (hperm.mem_iff.2 hy)⟩
      · rintro ⟨h1, h2⟩
        exact ⟨hperm.mem_iff.2 h1, fun y hy => h2 y (hperm.mem_iff.1 hy)⟩
    have hpl : df_latest ts ~ df_latest ts' :=
      (List.perm_ext_iff_of_nodup (nodup_canon keyT tsLe ts) (nodup_canon keyT tsLe ts')).2 hiff
    have hpr : df_latest_ranked ts mem ~ df_latest_ranked ts' mem := by
      unfold df_latest_ranked
      exact hpl.filter _
    calc rankingTotal ts mem
        = ((df_latest_ranked ts mem).map (·.amount)).sum := grand_total_eq _
      _ = ((df_latest_ranked ts' mem).map (·.amount)).sum := (hpr.map _).sum_eq
      _ = rankingTotal ts' mem := (grand_total_eq _).symm

/-- Concrete check of the amended C3: two rows of the same key with distinct
timestamps, in both input orders. -/
theorem claim_C3_witness :
    (∀ x ∈ ([⟨"d", "s", "m", "a", 1, 100, "t1"⟩, ⟨"d", "s", "m", "a", 2, 200, "t2"⟩] :
        List Trans), ∀ y ∈ ([⟨"d", "s", "m", "a", 1, 100, "t1"⟩,
          ⟨"d", "s", "m", "a", 2, 200, "t2"⟩] : List Trans),
        keyT x = keyT y → x.timestamp = y.timestamp → x = y) ∧
    ([⟨"d", "s", "m", "a", 1, 100, "t1"⟩, ⟨"d", "s", "m", "a", 2, 200, "t2"⟩] : List Trans)
      ~ [⟨"d", "s", "m", "a", 2, 200, "t2"⟩, ⟨"d", "s", "m", "a", 1, 100, "t1"⟩] ∧
    (rankingTotal [⟨"d", "s", "m", "a", 1, 100, "t1"⟩, ⟨"d", "s", "m", "a", 2, 200, "t2"⟩]
        [⟨"a", "TRUE", 1, "TRUE"⟩]
      = ((df_latest_ranked [⟨"d", "s", "m", "a", 1, 100, "t1"⟩,
          ⟨"d", "s", "m", "a", 2, 200, "t2"⟩] [⟨"a", "TRUE", 1, "TRUE"⟩]).map (·.amount)).sum ∧
     rankingTotal [⟨"d", "s", "m", "a", 1, 100, "t1"⟩, ⟨"d", "s", "m", "a", 2, 200, "t2"⟩]
        [⟨"a", "TRUE", 1, "TRUE"⟩]
      = rankingTotal [⟨"d", "s", "m", "a", 2, 200, "t2"⟩, ⟨"d", "s", "m", "a", 1, 100, "t1"⟩]
        [⟨"a", "TRUE", 1, "TRUE"⟩]) :=
  ⟨by decide, List.Perm.swap _ _ _,
    claim_C3_ranking_total _ _ _ (by decide) (List.Perm.swap _ _ _)⟩

/-! ### Claim C4: canonicalization is idempotent -/

/-- Claim C4: applying the line-227 canonicalization to its own output
changes nothing. -/
theorem claim_C4_canon_idempotent (ts : List Trans) :
    df_latest (df_latest ts) = df_latest ts :=
  canon_idem keyT tsLe ts

/-! ### Claim C10: canonicalization never fabricates or alters rows -/

/-- Claim C10: every canonical row is one of the input rows (all fields
unchanged), and the canonical output is a sub-multiset of the input. -/
theorem claim_C10_canon_subset (ts : List Trans) :
    (∀ r ∈ df_latest ts, r ∈ ts) ∧ df_latest ts <+~ ts :=
  ⟨fun _ h => mem_of_mem_canon keyT tsLe h, canon_subperm keyT tsLe ts⟩

/-- Concrete check of C10 on a two-row ledger. -/
theorem claim_C10_witness :
    (⟨"d", "s", "m", "a", 2, 200, "t2"⟩ : Trans) ∈
      df_latest [⟨"d", "s", "m", "a", 1, 100, "t1"⟩, ⟨"d", "s", "m", "a", 2, 200, "t2"⟩] ∧
    (⟨"d", "s", "m", "a", 2, 200, "t2"⟩ : Trans) ∈
      ([⟨"d", "s", "m", "a", 1, 100, "t1"⟩, ⟨"d", "s", "m", "a", 2, 200, "t2"⟩] : List Trans) ∧
    df_latest [⟨"d", "s", "m", "a", 1, 100, "t1"⟩, ⟨"d", "s", "m", "a", 2, 200, "t2"⟩] <+~
      [⟨"d", "s", "m", "a", 1, 100, "t1"⟩, ⟨"d", "s", "m", "a", 2, 200, "t2"⟩] :=
  ⟨by decide,
    (claim_C10_canon_subset _).1 _ (by decide),
    (claim_C10_canon_subset _).2⟩

/-! ### Helper lemmas about the schedule join -/

theorem mem_mergeRow_fields {t : Trans} {sl : List Sched} {r : MTrans}
    (h : r ∈ mergeRow t sl) :
    r.season = t.season ∧ r.match_id = t.match_id ∧ r.name = t.name ∧
    r.number = t.number ∧ r.amount = t.amount ∧ r.timestamp = t.timestamp := by
  unfold mergeRow at h
  split at h
  · rw [List.mem_singleton] at h
    subst h
    exact ⟨rfl, rfl, rfl, rfl, rfl, rfl⟩
  · obtain ⟨s, _, rfl⟩ := List.mem_map.1 h
    exact ⟨rfl, rfl, rfl, rfl, rfl, rfl⟩

theorem keyM_mergeRow {t : Trans} {sl : List Sched} {r : MTrans} (h : r ∈ mergeRow t sl) :
    keyM r = keyT t := by
  obtain ⟨h1, h2, h3, -, -, -⟩ := mem_mergeRow_fields h
  unfold keyM keyT
  rw [h1, h2, h3]

theorem mergeRow_ne_nil (t : Trans) (sl : List Sched) : ∃ y, y ∈ mergeRow t sl := by
  unfold mergeRow
  split
  · exact ⟨_, List.mem_singleton_self _⟩
  · rename_i hne
    obtain ⟨s, hs⟩ := List.exists_mem_of_ne_nil _ hne
    exact ⟨_, List.mem_map.2 ⟨s, hs, rfl⟩⟩

/-! ### Claim C2: latest-wins canonicalization -/

/-- Claim C2 as frozen is false on the code: the cumulative series, lottery
statistics and missed-draw counts consume `df_period_line` (line 253), which
deduplicates the schedule-enriched rows after sorting by `(date, timestamp)`
rather than by `timestamp`.  With two rows of one key whose stored dates
disagree (and no schedule match), the superseded earlier-timestamp row
carries the later date, survives `df_period_line`, and is exactly what the
missed-draw count reports, while canonicalization keeps the later
correction. -/
theorem claim_C2_counterexample :
    (df_latest [⟨"2025-02-01", "s", "m", "a", 9999, 100, "t1"⟩,
        ⟨"2025-01-01", "s", "m", "a", 5, 500, "t2"⟩]).filter
        (fun t => keyT t = ("s", "m", "a"))
      = [⟨"2025-01-01", "s", "m", "a", 5, 500, "t2"⟩] ∧
    strLt "t1" "t2" ∧
    (⟨"2025-02-01", "s", "m", "a", 9999, 100, "t1", "-"⟩ : MTrans) ∈
      df_period_line [⟨"2025-02-01", "s", "m", "a", 9999, 100, "t1"⟩,
        ⟨"2025-01-01", "s", "m", "a", 5, 500, "t2"⟩] ([] : List Sched)
        [⟨"a", "TRUE", 1, "TRUE"⟩] ∧
    missedCount [⟨"2025-02-01", "s", "m", "a", 9999, 100, "t1"⟩,
        ⟨"2025-01-01", "s", "m", "a", 5, 500, "t2"⟩] ([] : List Sched)
        [⟨"a", "TRUE", 1, "TRUE"⟩] "a" = 1 ∧
    ((df_latest [⟨"2025-02-01", "s", "m", "a", 9999, 100, "t1"⟩,
        ⟨"2025-01-01", "s", "m", "a", 5, 500, "t2"⟩]).filter
        (fun t => t.number = 9999)).length = 0 := by
  decide

/-- Claim C2 (amended): when at least two transaction rows share a
`(season, match_id, name)` key, canonicalization retains exactly one row for
that key — an input row whose timestamp is lexicographically greatest — and
every row of the group with a strictly smaller timestamp is excluded from the
canonical output, hence from the ranking computed on it.  Provided the
schedule-enriched rows of one key agree on their `date` column, every
`df_period_line` row of that key also carries that greatest timestamp, so the
superseded rows are likewise excluded from the cumulative series, the lottery
statistics and the missed-draw counts, which all filter `df_period_line`. -/
theorem claim_C2_latest_wins (ts : List Trans) (sl : List Sched) (mem : List Member)
    (k : String × String × String)
    (h : 2 ≤ (ts.filter (fun t => keyT t = k)).length)
    (hdate : ∀ r1 ∈ merged_trans ts sl, ∀ r2 ∈ merged_trans ts sl,
      keyM r1 = keyM r2 → r1.date = r2.date) :
    ∃ x, (df_latest ts).filter (fun t => keyT t = k) = [x] ∧ x ∈ ts ∧ keyT x = k ∧
      (∀ y ∈ ts, keyT y = k → strLe y.timestamp x.timestamp) ∧
      (∀ y ∈ ts, keyT y = k → strLt y.timestamp x.timestamp → y ∉ df_latest ts) ∧
      ∀ r ∈ df_period_line ts sl mem, keyM r = k → r.timestamp = x.timestamp := by
  have hk : ∃ t ∈ ts, keyT t = k := by
    rcases hfil : ts.filter (fun t => keyT t = k) with _ | ⟨a, rest⟩
    · rw [hfil] at h
      simp at h
    · have ha : a ∈ ts.filter (fun t => keyT t = k) := hfil ▸ List.mem_cons_self a rest
      exact ⟨a, (List.mem_filter.1 ha).1, by simpa using (List.mem_filter.1 ha).2⟩
  obtain ⟨m, hfil, hml, hmk, hmax⟩ := canon_filter_key keyT tsLe hk
  have hfil2 : (df_latest ts).filter (fun t => keyT t = k) = [m] := hfil
  refine ⟨m, hfil2, hml, hmk, hmax, ?_, ?_⟩
  · intro y hy hyk hlt hymem
    have hym : y ∈ (df_latest ts).filter (fun t => keyT t = k) :=
      List.mem_filter.2 ⟨hymem, by simp [hyk]⟩
    rw [hfil2, List.mem_singleton] at hym
    subst hym
    exact absurd hlt (lt_irrefl _)
  · intro r hr hrk
    have hrC : r ∈ canon keyM dtLe (merged_trans ts sl) := (List.mem_filter.1 hr).1
    have hrM : r ∈ merged_trans ts sl := mem_of_mem_canon keyM dtLe hrC
    obtain ⟨tr, htr, hmr⟩ := List.mem_flatMap.1 hrM
    have htrk : keyT tr = k := by rw [← keyM_mergeRow hmr, hrk]
    have hup : strLe r.timestamp m.timestamp := by
      rw [(mem_mergeRow_fields hmr).2.2.2.2.2]
      exact hmax tr htr htrk
    have hrmax : ∀ z ∈ merged_trans ts sl, keyM z = k → dtLe z r := by
      obtain ⟨m2, hm2fil, hm2M, hm2k, hm2max⟩ :=
        canon_filter_key keyM dtLe (⟨r, hrM, hrk⟩ : ∃ z ∈ merged_trans ts sl, keyM z = k)
      have hrr : r ∈ (canon keyM dtLe (merged_trans ts sl)).filter (fun z => keyM z = k) :=
        List.mem_filter.2 ⟨hrC, by simp [hrk]⟩
      rw [hm2fil, List.mem_singleton] at hrr
      subst hrr
      exact hm2max
    obtain ⟨y, hy⟩ := mergeRow_ne_nil m sl
    have hyM : y ∈ merged_trans ts sl := List.mem_flatMap.2 ⟨m, hml, hy⟩
    have hyk : keyM y = k := by rw [keyM_mergeRow hy, hmk]
    have hdt : dtLe y r := hrmax y hyM hyk
    have hdeq : y.date = r.date := hdate y hyM r hrM (by rw [hyk, hrk])
    have hlow : strLe m.timestamp r.timestamp := by
      rcases hdt with hlt | ⟨-, hle⟩
      · rw [hdeq] at hlt
        exact absurd hlt (lt_irrefl _)
      · rw [← (mem_mergeRow_fields hy).2.2.2.2.2]
        exact hle
    exact strLe_antisymm hup hlow

/-- Concrete check of the amended C2: two corrections of one key with equal
stored dates; the `"t2"` row wins both in the canonical output and in the
period line. -/
theorem claim_C2_witness :
    2 ≤ (([⟨"d", "s", "m", "a", 1, 100, "t1"⟩, ⟨"d", "s", "m", "a", 2, 200, "t2"⟩] :
        List Trans).filter (fun t => keyT t = ("s", "m", "a"))).length ∧
    (∀ r1 ∈ merged_trans [⟨"d", "s", "m", "a", 1, 100, "t1"⟩,
        ⟨"d", "s", "m", "a", 2, 200, "t2"⟩] ([] : List Sched),
      ∀ r2 ∈ merged_trans [⟨"d", "s", "m", "a", 1, 100, "t1"⟩,
          ⟨"d", "s", "m", "a", 2, 200, "t2"⟩] ([] : List Sched),
        keyM r1 = keyM r2 → r1.date = r2.date) ∧
    (∃ x, (df_latest [⟨"d", "s", "m", "a", 1, 100, "t1"⟩,
          ⟨"d", "s", "m", "a", 2, 200, "t2"⟩]).filter
          (fun t => keyT t = ("s", "m", "a")) = [x] ∧
        x ∈ ([⟨"d", "s", "m", "a", 1, 100, "t1"⟩, ⟨"d", "s", "m", "a", 2, 200, "t2"⟩] :
          List Trans) ∧
        keyT x = ("s", "m", "a") ∧
        (∀ y ∈ ([⟨"d", "s", "m", "a", 1, 100, "t1"⟩, ⟨"d", "s", "m", "a", 2, 200, "t2"⟩] :
            List Trans), keyT y = ("s", "m", "a") → strLe y.timestamp x.timestamp) ∧
        (∀ y ∈ ([⟨"d", "s", "m", "a", 1, 100, "t1"⟩, ⟨"d", "s", "m", "a", 2, 200, "t2"⟩] :
            List Trans), keyT y = ("s", "m", "a") → strLt y.timestamp x.timestamp →
          y ∉ df_latest [⟨"d", "s", "m", "a", 1, 100, "t1"⟩,
            ⟨"d", "s", "m", "a", 2, 200, "t2"⟩]) ∧
        ∀ r ∈ df_period_line [⟨"d", "s", "m", "a", 1, 100, "t1"⟩,
            ⟨"d", "s", "m", "a", 2, 200, "t2"⟩] ([] : List Sched) [⟨"a", "TRUE", 1, "TRUE"⟩],
          keyM r = ("s", "m", "a") → r.timestamp = x.timestamp) :=
  ⟨by decide, by decide,
    claim_C2_latest_wins [⟨"d", "s", "m", "a", 1, 100, "t1"⟩,
        ⟨"d", "s", "m", "a", 2, 200, "t2"⟩] ([] : List Sched) [⟨"a", "TRUE", 1, "TRUE"⟩]
      ("s", "m", "a") (by decide) (by decide)⟩

/-! ### Claim C5: schedule join semantics -/

/-- Claim C5: for a transaction row `t`, if no schedule row matches
`(season, match_id)` then the join produces exactly the row with
`opponent = "-"` and `t`'s own stored date; every matching schedule row
produces an enriched row whose `date` is the schedule's date (overriding the
transaction's) and whose `opponent` is the schedule's opponent. -/
theorem claim_C5_schedule_join (ts : List Trans) (sl : List Sched) (t : Trans)
    (ht : t ∈ ts) :
    ((∀ s ∈ sl, ¬ schedMatch t s) →
      mergeRow t sl
        = [⟨t.date, t.season, t.match_id, t.name, t.number, t.amount, t.timestamp, "-"⟩] ∧
      (⟨t.date, t.season, t.match_id, t.name, t.number, t.amount, t.timestamp, "-"⟩ : MTrans)
        ∈ merged_trans ts sl) ∧
    (∀ s ∈ sl, schedMatch t s →
      (⟨s.date, t.season, t.match_id, t.name, t.number, t.amount, t.timestamp, s.opponent⟩ :
        MTrans) ∈ merged_trans ts sl) := by
  constructor
  · intro hnone
    have hfil : sl.filter (fun s => schedMatch t s) = [] :=
      List.filter_eq_nil_iff.2 (fun s hs => by simpa using hnone s hs)
    have hrow : mergeRow t sl
        = [⟨t.date, t.season, t.match_id, t.name, t.number, t.amount, t.timestamp, "-"⟩] := by
      unfold mergeRow
      rw [if_pos hfil]
    refine ⟨hrow, ?_⟩
    exact List.mem_flatMap.2 ⟨t, ht, by rw [hrow]; exact List.mem_singleton_self _⟩
  · intro s hs hm
    have hsf : s ∈ sl.filter (fun s => schedMatch t s) :=
      List.mem_filter.2 ⟨hs, by simpa using hm⟩
    have hne : sl.filter (fun s => schedMatch t s) ≠ [] := by
      intro hnil
      rw [hnil] at hsf
      simp at hsf
    have hrow : (⟨s.date, t.season, t.match_id, t.name, t.number, t.amount, t.timestamp,
        s.opponent⟩ : MTrans) ∈ mergeRow t sl := by
      unfold mergeRow
      rw [if_neg hne]
      exact List.mem_map.2 ⟨s, hsf, rfl⟩
    exact List.mem_flatMap.2 ⟨t, ht, hrow⟩

/-- Concrete check of C5: one matching schedule row overrides the date and
provides the opponent; with an empty schedule the row keeps its date and gets
`opponent = "-"`. -/
theorem claim_C5_witness :
    ((⟨"d0", "s", "m", "a", 5, 500, "t1"⟩ : Trans) ∈
      ([⟨"d0", "s", "m", "a", 5, 500, "t1"⟩] : List Trans)) ∧
    schedMatch ⟨"d0", "s", "m", "a", 5, 500, "t1"⟩ ⟨"s", "m", "D", "OPP", "Home", "St"⟩ ∧
    (⟨"D", "s", "m", "a", 5, 500, "t1", "OPP"⟩ : MTrans) ∈
      merged_trans [⟨"d0", "s", "m", "a", 5, 500, "t1"⟩] [⟨"s", "m", "D", "OPP", "Home", "St"⟩] ∧
    (mergeRow ⟨"d0", "s", "m", "a", 5, 500, "t1"⟩ ([] : List Sched)
        = [⟨"d0", "s", "m", "a", 5, 500, "t1", "-"⟩] ∧
      (⟨"d0", "s", "m", "a", 5, 500, "t1", "-"⟩ : MTrans) ∈
        merged_trans [⟨"d0", "s", "m", "a", 5, 500, "t1"⟩] ([] : List Sched)) :=
  ⟨by decide, by decide,
    (claim_C5_schedule_join [⟨"d0", "s", "m", "a", 5, 500, "t1"⟩]
        [⟨"s", "m", "D", "OPP", "Home", "St"⟩] ⟨"d0", "s", "m", "a", 5, 500, "t1"⟩
        (by decide)).2
      ⟨"s", "m", "D", "OPP", "Home", "St"⟩ (by decide) (by decide),
    (claim_C5_schedule_join [⟨"d0", "s", "m", "a", 5, 500, "t1"⟩] ([] : List Sched)
        ⟨"d0", "s", "m", "a", 5, 500, "t1"⟩ (by decide)).1
      (fun s hs => absurd hs (List.not_mem_nil s))⟩

/-! ### Claim C6: Best-5 / Worst-5 lottery views -/

/-- Claim C6: no row of the Best-5 or Worst-5 view has `number = 0` or
`number = 9999`; Best-5 is the ascending prefix of the `number`-sorted valid
rows and every kept row is at most every dropped row (so it holds the five
smallest), and dually Worst-5 is the descending prefix holding the five
largest. -/
theorem claim_C6_best_worst (ts : List Trans) (sl : List Sched) (mem : List Member) :
    (∀ r ∈ df_best ts sl mem, r.number ≠ 0 ∧ r.number ≠ 9999) ∧
    (∀ r ∈ df_worst ts sl mem, r.number ≠ 0 ∧ r.number ≠ 9999) ∧
    ((df_best ts sl mem).Sorted numLe ∧
      df_best ts sl mem ++ (List.insertionSort numLe (df_valid_num ts sl mem)).drop 5
        ~ df_valid_num ts sl mem ∧
      ∀ b ∈ df_best ts sl mem,
        ∀ v ∈ (List.insertionSort numLe (df_valid_num ts sl mem)).drop 5,
          b.number ≤ v.number) ∧
    ((df_worst ts sl mem).Sorted numGe ∧
      df_worst ts sl mem ++ (List.insertionSort numGe (df_valid_num ts sl mem)).drop 5
        ~ df_valid_num ts sl mem ∧
      ∀ w ∈ df_worst ts sl mem,
        ∀ v ∈ (List.insertionSort numGe (df_valid_num ts sl mem)).drop 5,
          v.number ≤ w.number) := by
  have hvalid : ∀ r ∈ df_valid_num ts sl mem, r.number ≠ 0 ∧ r.number ≠ 9999 := by
    intro r hr
    have h2 := (List.mem_filter.1 hr).2
    simp only [decide_eq_true_eq] at h2
    exact ⟨by omega, h2.2⟩
  refine ⟨?_, ?_, ⟨?_, ?_, ?_⟩, ⟨?_, ?_, ?_⟩⟩
  · intro r hr
    exact hvalid r ((List.mem_insertionSort numLe).1 (List.mem_of_mem_take hr))
  · intro r hr
    exact hvalid r ((List.mem_insertionSort numGe).1 (List.mem_of_mem_take hr))
  · exact List.Pairwise.sublist (List.take_sublist 5 _)
      (List.sorted_insertionSort numLe (df_valid_num ts sl mem))
  · rw [show df_best ts sl mem
        = (List.insertionSort numLe (df_valid_num ts sl mem)).take 5 from rfl,
      List.take_append_drop]
    exact List.perm_insertionSort numLe _
  · intro b hb v hv
    have hp := List.sorted_insertionSort numLe (df_valid_num ts sl mem)
    rw [← List.take_append_drop 5 (List.insertionSort numLe (df_valid_num ts sl mem))] at hp
    exact (List.pairwise_append.1 hp).2.2 b hb v hv
  · exact List.Pairwise.sublist (List.take_sublist 5 _)
      (List.sorted_insertionSort numGe (df_valid_num ts sl mem))
  · rw [show df_worst ts sl mem
        = (List.insertionSort numGe (df_valid_num ts sl mem)).take 5 from rfl,
      List.take_append_drop]
    exact List.perm_insertionSort numGe _
  · intro w hw v hv
    have hp := List.sorted_insertionSort numGe (df_valid_num ts sl mem)
    rw [← List.take_append_drop 5 (List.insertionSort numGe (df_valid_num ts sl mem))] at hp
    exact (List.pairwise_append.1 hp).2.2 w hw v hv

/-- Concrete check of C6: one valid row, one sentinel row; the valid row is
the Best-5 head. -/
theorem claim_C6_witness :
    (⟨"d1", "s", "m1", "a", 5, 500, "t1", "-"⟩ : MTrans) ∈
      df_best [⟨"d1", "s", "m1", "a", 5, 500, "t1"⟩, ⟨"d2", "s", "m2", "a", 9999, 100, "t2"⟩]
        ([] : List Sched) [⟨"a", "TRUE", 1, "TRUE"⟩] ∧
    ((⟨"d1", "s", "m1", "a", 5, 500, "t1", "-"⟩ : MTrans).number ≠ 0 ∧
      (⟨"d1", "s", "m1", "a", 5, 500, "t1", "-"⟩ : MTrans).number ≠ 9999) ∧
    df_best [⟨"d1", "s", "m1", "a", 5, 500, "t1"⟩, ⟨"d2", "s", "m2", "a", 9999, 100, "t2"⟩]
        ([] : List Sched) [⟨"a", "TRUE", 1, "TRUE"⟩] ++
      (List.insertionSort numLe
        (df_valid_num [⟨"d1", "s", "m1", "a", 5, 500, "t1"⟩,
          ⟨"d2", "s", "m2", "a", 9999, 100, "t2"⟩] ([] : List Sched)
          [⟨"a", "TRUE", 1, "TRUE"⟩])).drop 5
      ~ df_valid_num [⟨"d1", "s", "m1", "a", 5, 500, "t1"⟩,
          ⟨"d2", "s", "m2", "a", 9999, 100, "t2"⟩] ([] : List Sched) [⟨"a", "TRUE", 1, "TRUE"⟩] :=
  ⟨by decide,
    (claim_C6_best_worst [⟨"d1", "s", "m1", "a", 5, 500, "t1"⟩,
        ⟨"d2", "s", "m2", "a", 9999, 100, "t2"⟩] ([] : List Sched)
        [⟨"a", "TRUE", 1, "TRUE"⟩]).1 _ (by decide),
    (claim_C6_best_worst [⟨"d1", "s", "m1", "a", 5, 500, "t1"⟩,
        ⟨"d2", "s", "m2", "a", 9999, 100, "t2"⟩] ([] : List Sched)
        [⟨"a", "TRUE", 1, "TRUE"⟩]).2.2.1.2.1⟩

/-! ### Claim C9: ranking-eligibility is exact string equality with "TRUE" -/

/-- Claim C9: a member whose `is_ranking_target` is anything other than the
literal string `"TRUE"` is excluded from the eligible-member name list, hence
from the ranked canonical rows, the ranking entries, the period line, the
lottery-number statistics (valid rows, Best-5, Worst-5), the missed-draw
counts, and the cumulative series. -/
theorem claim_C9_eligibility_gate (ts : List Trans) (sl : List Sched) (mem : List Member)
    (n : String) (h : ∀ m ∈ mem, m.name = n → m.is_ranking_target ≠ "TRUE") :
    (∀ r ∈ df_latest_ranked ts mem, r.name ≠ n) ∧
    (∀ p ∈ ranking (df_latest_ranked ts mem), p.1 ≠ n) ∧
    (∀ r ∈ df_period_line ts sl mem, r.name ≠ n) ∧
    (∀ r ∈ df_valid_num ts sl mem, r.name ≠ n) ∧
    (∀ r ∈ df_best ts sl mem, r.name ≠ n) ∧
    (∀ r ∈ df_worst ts sl mem, r.name ≠ n) ∧
    missedCount ts sl mem n = 0 ∧
    cumulative_amount ts sl mem n = [] := by
  have hnt : n ∉ target_members mem := by
    intro hmem
    obtain ⟨m, hm, hmn⟩ := List.mem_map.1 hmem
    have h1 := (List.mem_filter.1 hm).1
    have h2 := (List.mem_filter.1 hm).2
    simp only [decide_eq_true_eq] at h2
    exact h m h1 hmn h2
  have key1 : ∀ r ∈ df_latest_ranked ts mem, r.name ≠ n := by
    intro r hr hrn
    have h2 := (List.mem_filter.1 hr).2
    simp only [decide_eq_true_eq] at h2
    exact hnt (hrn ▸ h2)
  have key2 : ∀ r ∈ df_period_line ts sl mem, r.name ≠ n := by
    intro r hr hrn
    have h2 := (List.mem_filter.1 hr).2
    simp only [decide_eq_true_eq] at h2
    exact hnt (hrn ▸ h2)
  have key4 : ∀ r ∈ df_valid_num ts sl mem, r.name ≠ n :=
    fun r hr => key2 r (List.mem_filter.1 hr).1
  have hfil9 : (df_period_line ts sl mem).filter (fun r => r.name = n) = [] := by
    rw [List.filter_eq_nil_iff]
    intro r hr hrn
    simp only [decide_eq_true_eq] at hrn
    exact key2 r hr hrn
  refine ⟨key1, ?_, key2, key4, ?_, ?_, ?_, ?_⟩
  · intro p hp hpn
    have hp2 : p ∈ ((df_latest_ranked ts mem).map (·.name)).dedup.map
        (fun nm => (nm, (((df_latest_ranked ts mem).filter
          (fun t => t.name = nm)).map (·.amount)).sum)) :=
      (List.mem_insertionSort amtGe).1 hp
    obtain ⟨nm, hnm, hpe⟩ := List.mem_map.1 hp2
    obtain ⟨r, hr, hrnm⟩ := List.mem_map.1 (List.mem_dedup.1 hnm)
    have : p.1 = nm := by rw [← hpe]
    exact key1 r hr (by rw [hrnm, ← this, hpn])
  · intro r hr
    exact key4 r ((List.mem_insertionSort numLe).1 (List.mem_of_mem_take hr))
  · intro r hr
    exact key4 r ((List.mem_insertionSort numGe).1 (List.mem_of_mem_take hr))
  · show (((df_period_line ts sl mem).filter (fun r => r.number = 9999)).filter
      (fun r => r.name = n)).length = 0
    rw [List.length_eq_zero, List.filter_eq_nil_iff]
    intro r hr hrn
    simp only [decide_eq_true_eq] at hrn
    exact key2 r (List.mem_filter.1 hr).1 hrn
  · show runningSums 0 (((df_period_line ts sl mem).filter
      (fun r => r.name = n)).map (·.amount)) = []
    rw [hfil9]
    rfl

/-- Concrete check of C9: the member is flagged `"FALSE"`, so their row and
counts vanish from all aggregates. -/
theorem claim_C9_witness :
    (∀ m ∈ ([⟨"a", "TRUE", 1, "FALSE"⟩] : List Member), m.name = "a" →
      m.is_ranking_target ≠ "TRUE") ∧
    (∀ r ∈ df_latest_ranked [⟨"d", "s", "m", "a", 5, 500, "t1"⟩] [⟨"a", "TRUE", 1, "FALSE"⟩],
      r.name ≠ "a") ∧
    missedCount [⟨"d", "s", "m", "a", 9999, 500, "t1"⟩] ([] : List Sched)
      [⟨"a", "TRUE", 1, "FALSE"⟩] "a" = 0 ∧
    cumulative_amount [⟨"d", "s", "m", "a", 5, 500, "t1"⟩] ([] : List Sched)
      [⟨"a", "TRUE", 1, "FALSE"⟩] "a" = [] :=
  ⟨by decide,
    (claim_C9_eligibility_gate [⟨"d", "s", "m", "a", 5, 500, "t1"⟩] ([] : List Sched)
      [⟨"a", "TRUE", 1, "FALSE"⟩] "a" (by decide)).1,
    (claim_C9_eligibility_gate [⟨"d", "s", "m", "a", 9999, 500, "t1"⟩] ([] : List Sched)
      [⟨"a", "TRUE", 1, "FALSE"⟩] "a" (by decide)).2.2.2.2.2.2.1,
    (claim_C9_eligibility_gate [⟨"d", "s", "m", "a", 5, 500, "t1"⟩] ([] : List Sched)
      [⟨"a", "TRUE", 1, "FALSE"⟩] "a" (by decide)).2.2.2.2.2.2.2⟩

/-! ### Claim C8: cumulative series is non-decreasing -/

theorem runningSums_chain :
    ∀ (xs : List Int) (acc : Int), (∀ x ∈ xs, 0 ≤ x) →
      List.Chain' (· ≤ ·) (runningSums acc xs)
  | [], _, _ => List.chain'_nil
  | a :: xs, acc, h => by
    rw [runningSums, List.chain'_cons']
    constructor
    · intro y hy
      cases xs with
      | nil => simp [runningSums] at hy
      | cons b ys =>
        rw [runningSums] at hy
        simp only [List.head?_cons, Option.mem_def, Option.some.injEq] at hy
        have hb : 0 ≤ b := h b (by simp)
        omega
    · exact runningSums_chain xs (acc + a) (fun x hx => h x (List.mem_cons_of_mem a hx))

/-- Claim C8: when every input amount is non-negative, each member's
cumulative-amount series is non-decreasing from one entry to the next. -/
theorem claim_C8_cumulative_nondecreasing (ts : List Trans) (sl : List Sched)
    (mem : List Member) (n : String) (h : ∀ t ∈ ts, 0 ≤ t.amount) :
    List.Chain' (· ≤ ·) (cumulative_amount ts sl mem n) := by
  unfold cumulative_amount
  refine runningSums_chain _ 0 ?_
  intro x hx
  obtain ⟨r, hr, rfl⟩ := List.mem_map.1 hx
  have hr1 : r ∈ df_period_line ts sl mem := (List.mem_filter.1 hr).1
  have hr2 : r ∈ merged_trans ts sl :=
    mem_of_mem_canon keyM dtLe (List.mem_filter.1 hr1).1
  obtain ⟨t, ht, hmr⟩ := List.mem_flatMap.1 hr2
  rw [(mem_mergeRow_fields hmr).2.2.2.2.1]
  exact h t ht

/-- Concrete check of C8 on a two-row, two-match ledger. -/
theorem claim_C8_witness :
    (∀ t ∈ ([⟨"d1", "s", "m1", "a", 5, 500, "t1"⟩, ⟨"d2", "s", "m2", "a", 7, 700, "t2"⟩] :
        List Trans), 0 ≤ t.amount) ∧
    List.Chain' (· ≤ ·)
      (cumulative_amount [⟨"d1", "s", "m1", "a", 5, 500, "t1"⟩,
        ⟨"d2", "s", "m2", "a", 7, 700, "t2"⟩] [] [⟨"a", "TRUE", 1, "TRUE"⟩] "a") ∧
    cumulative_amount [⟨"d1", "s", "m1", "a", 5, 500, "t1"⟩,
      ⟨"d2", "s", "m2", "a", 7, 700, "t2"⟩] [] [⟨"a", "TRUE", 1, "TRUE"⟩] "a" = [500, 1200] :=
  ⟨by decide,
    claim_C8_cumulative_nondecreasing _ _ _ "a" (by decide),
    by decide⟩

/-! ### Claim C7: missed-draw counts -/

/-- Claim C7 as frozen is false on the code: the missed-draw table is computed
from `df_period_line`, which is restricted to ranking-eligible members, so a
`"FALSE"`-flagged member with a canonical `number = 9999` row is reported with
count `0` while the canonical rows contain one such row. -/
theorem claim_C7_counterexample :
    missedCount [⟨"d", "s", "m", "a", 9999, 100, "t1"⟩] ([] : List Sched)
        [⟨"a", "TRUE", 1, "FALSE"⟩] "a" = 0 ∧
    ((df_latest [⟨"d", "s", "m", "a", 9999, 100, "t1"⟩]).filter
        (fun t => t.name = "a" ∧ t.number = 9999)).length = 1 := by
  decide

/-- For a key kept in the canonicalized merged rows, the canonical transaction
row of the same key carries the same `name` and `number` — provided merged
rows of one key agree on `date` (H2) and timestamps are unambiguous inside a
key (H3). -/
theorem kept_merged_row_number (ts : List Trans) (sl : List Sched)
    (H2 : ∀ r1 ∈ merged_trans ts sl, ∀ r2 ∈ merged_trans ts sl,
      keyM r1 = keyM r2 → r1.date = r2.date)
    (H3 : ∀ t1 ∈ ts, ∀ t2 ∈ ts, keyT t1 = keyT t2 → t1.timestamp = t2.timestamp → t1 = t2)
    {k : String × String × String} {mrow : MTrans}
    (hm : mrow ∈ canon keyM dtLe (merged_trans ts sl)) (hkm : keyM mrow = k) :
    ∃ x, x ∈ df_latest ts ∧ keyT x = k ∧ x.name = mrow.name ∧ x.number = mrow.number := by
  have hmM : mrow ∈ merged_trans ts sl := mem_of_mem_canon keyM dtLe hm
  obtain ⟨t0, ht0, hmr0⟩ := List.mem_flatMap.1 hmM
  have hk0 : keyT t0 = k := by rw [← keyM_mergeRow hmr0, hkm]
  obtain ⟨x, hxfil, hxts, hxk, hxmax⟩ :=
    canon_filter_key keyT tsLe (⟨t0, ht0, hk0⟩ : ∃ t ∈ ts, keyT t = k)
  have hxC : x ∈ canon keyT tsLe ts := by
    have hx1 : x ∈ (canon keyT tsLe ts).filter (fun t => keyT t = k) := by
      rw [hxfil]
      exact List.mem_singleton_self x
    exact (List.mem_filter.1 hx1).1
  have hmmax : ∀ z ∈ merged_trans ts sl, keyM z = k → dtLe z mrow := by
    obtain ⟨m2, hm2fil, hm2M, hm2k, hm2max⟩ :=
      canon_filter_key keyM dtLe (⟨mrow, hmM, hkm⟩ : ∃ r ∈ merged_trans ts sl, keyM r = k)
    have hmm : mrow ∈ (canon keyM dtLe (merged_trans ts sl)).filter (fun r => keyM r = k) :=
      List.mem_filter.2 ⟨hm, by simp [hkm]⟩
    rw [hm2fil, List.mem_singleton] at hmm
    subst hmm
    exact hm2max
  obtain ⟨y, hy⟩ := mergeRow_ne_nil x sl
  have hyM : y ∈ merged_trans ts sl := List.mem_flatMap.2 ⟨x, hxts, hy⟩
  have hyk : keyM y = k := by rw [keyM_mergeRow hy, hxk]
  have hdt : dtLe y mrow := hmmax y hyM hyk
  have hdate : y.date = mrow.date := H2 y hyM mrow hmM (by rw [hyk, hkm])
  have hts_le1 : strLe y.timestamp mrow.timestamp := by
    rcases hdt with hlt | ⟨-, hle⟩
    · rw [hdate] at hlt
      exact absurd hlt (lt_irrefl _)
    · exact hle
  have hyx : y.timestamp = x.timestamp := (mem_mergeRow_fields hy).2.2.2.2.2
  have hm0 : mrow.timestamp = t0.timestamp := (mem_mergeRow_fields hmr0).2.2.2.2.2
  have h1 : strLe x.timestamp t0.timestamp := by
    rw [← hyx, ← hm0]
    exact hts_le1
  have h2 : strLe t0.timestamp x.timestamp := hxmax t0 ht0 hk0
  have heq : t0 = x := H3 t0 ht0 x hxts (hk0.trans hxk.symm) (strLe_antisymm h2 h1)
  refine ⟨x, hxC, hxk, ?_, ?_⟩
  · rw [← heq]
    exact ((mem_mergeRow_fields hmr0).2.2.1).symm
  · rw [← heq]
    exact ((mem_mergeRow_fields hmr0).2.2.2.1).symm

/-- Converse of `kept_merged_row_number`: for a key kept in the canonical
transaction rows, the canonicalized merged rows keep a row of the same key
with the same `name` and `number`. -/
theorem kept_trans_row_number (ts : List Trans) (sl : List Sched)
    (H2 : ∀ r1 ∈ merged_trans ts sl, ∀ r2 ∈ merged_trans ts sl,
      keyM r1 = keyM r2 → r1.date = r2.date)
    (H3 : ∀ t1 ∈ ts, ∀ t2 ∈ ts, keyT t1 = keyT t2 → t1.timestamp = t2.timestamp → t1 = t2)
    {k : String × String × String} {x : Trans}
    (hx : x ∈ df_latest ts) (hkx : keyT x = k) :
    ∃ mrow, mrow ∈ canon keyM dtLe (merged_trans ts sl) ∧ keyM mrow = k ∧
      mrow.name = x.name ∧ mrow.number = x.number := by
  have hxts : x ∈ ts := mem_of_mem_canon keyT tsLe hx
  have hxmax : ∀ y ∈ ts, keyT y = k → tsLe y x := by
    obtain ⟨x2, hfil, hx2ts, hx2k, hx2max⟩ :=
      canon_filter_key keyT tsLe (⟨x, hxts, hkx⟩ : ∃ t ∈ ts, keyT t = k)
    have hxx : x ∈ (canon keyT tsLe ts).filter (fun t => keyT t = k) :=
      List.mem_filter.2 ⟨hx, by simp [hkx]⟩
    rw [hfil, List.mem_singleton] at hxx
    subst hxx
    exact hx2max
  obtain ⟨y0, hy0⟩ := mergeRow_ne_nil x sl
  have hy0M : y0 ∈ merged_trans ts sl := List.mem_flatMap.2 ⟨x, hxts, hy0⟩
  have hy0k : keyM y0 = k := by rw [keyM_mergeRow hy0, hkx]
  obtain ⟨m, hmfil, hmM, hmk, hmmax⟩ :=
    canon_filter_key keyM dtLe (⟨y0, hy0M, hy0k⟩ : ∃ r ∈ merged_trans ts sl, keyM r = k)
  have hmC : m ∈ canon keyM dtLe (merged_trans ts sl) := by
    have hm1 : m ∈ (canon keyM dtLe (merged_trans ts sl)).filter (fun r => keyM r = k) := by
      rw [hmfil]
      exact List.mem_singleton_self m
    exact (List.mem_filter.1 hm1).1
  obtain ⟨t1, ht1, hmr1⟩ := List.mem_flatMap.1 hmM
  have ht1k : keyT t1 = k := by rw [← keyM_mergeRow hmr1, hmk]
  have hdt : dtLe y0 m := hmmax y0 hy0M hy0k
  have hdate : y0.date = m.date := H2 y0 hy0M m hmM (by rw [hy0k, hmk])
  have hts_le1 : strLe y0.timestamp m.timestamp := by
    rcases hdt with hlt | ⟨-, hle⟩
    · rw [hdate] at hlt
      exact absurd hlt (lt_irrefl _)
    · exact hle
  have hyx : y0.timestamp = x.timestamp := (mem_mergeRow_fields hy0).2.2.2.2.2
  have hm1 : m.timestamp = t1.timestamp := (mem_mergeRow_fields hmr1).2.2.2.2.2
  have h1 : strLe x.timestamp t1.timestamp := by
    rw [← hyx, ← hm1]
    exact hts_le1
  have h2 : strLe t1.timestamp x.timestamp := hxmax t1 ht1 ht1k
  have heq : t1 = x := H3 t1 ht1 x hxts (ht1k.trans hkx.symm) (strLe_antisymm h2 h1)
  refine ⟨m, hmC, hmk, ?_, ?_⟩
  · rw [(mem_mergeRow_fields hmr1).2.2.1, heq]
  · rw [(mem_mergeRow_fields hmr1).2.2.2.1, heq]

/-- Claim C7 (amended): for a ranking-eligible member, and provided (a) merged
rows sharing a `(season, match_id, name)` key agree on their `date` column and
(b) no two distinct transactions of one key share a timestamp, the missed-draw
count reported for that member equals the number of canonicalized transaction
rows with that name and `number = 9999`. -/
theorem claim_C7_missed_draw_count (ts : List Trans) (sl : List Sched) (mem : List Member)
    (n : String)
    (H1 : n ∈ target_members mem)
    (H2 : ∀ r1 ∈ merged_trans ts sl, ∀ r2 ∈ merged_trans ts sl,
      keyM r1 = keyM r2 → r1.date = r2.date)
    (H3 : ∀ t1 ∈ ts, ∀ t2 ∈ ts, keyT t1 = keyT t2 → t1.timestamp = t2.timestamp → t1 = t2) :
    missedCount ts sl mem n
      = ((df_latest ts).filter (fun t => t.name = n ∧ t.number = 9999)).length := by
  have step1 : missedCount ts sl mem n
      = ((canon keyM dtLe (merged_trans ts sl)).filter
          (fun r => decide (r.name = n) && decide (r.number = 9999))).length := by
    show ((((canon keyM dtLe (merged_trans ts sl)).filter
        (fun r => decide (r.name ∈ target_members mem))).filter
          (fun r => decide (r.number = 9999))).filter (fun r => decide (r.name = n))).length = _
    rw [List.filter_filter, List.filter_filter]
    congr 1
    apply List.filter_congr
    intro r _
    by_cases hn : r.name = n
    · have hmem : r.name ∈ target_members mem := by rw [hn]; exact H1
      simp [hn, hmem, H1]
    · simp [hn]
  have step2 : (df_latest ts).filter (fun t => t.name = n ∧ t.number = 9999)
      = (df_latest ts).filter (fun t => decide (t.name = n) && decide (t.number = 9999)) := by
    apply List.filter_congr
    intro t _
    simp
  rw [step1, step2]
  have hApw : ((canon keyM dtLe (merged_trans ts sl)).filter
      (fun r => decide (r.name = n) && decide (r.number = 9999))).Pairwise
        (fun a b => keyM a ≠ keyM b) :=
    (pairwise_key_canon keyM dtLe (merged_trans ts sl)).filter _
  have hBpw : ((canon keyT tsLe ts).filter
      (fun t => decide (t.name = n) && decide (t.number = 9999))).Pairwise
        (fun a b => keyT a ≠ keyT b) :=
    (pairwise_key_canon keyT tsLe ts).filter _
  have hAmap : (((canon keyM dtLe (merged_trans ts sl)).filter
      (fun r => decide (r.name = n) && decide (r.number = 9999))).map keyM).Nodup :=
    List.Pairwise.map keyM (fun _ _ hab => hab) hApw
  have hBmap : (((canon keyT tsLe ts).filter
      (fun t => decide (t.name = n) && decide (t.number = 9999))).map keyT).Nodup :=
    List.Pairwise.map keyT (fun _ _ hab => hab) hBpw
  have hiff : ∀ k, k ∈ ((canon keyM dtLe (merged_trans ts sl)).filter
      (fun r => decide (r.name = n) && decide (r.number = 9999))).map keyM ↔
      k ∈ ((canon keyT tsLe ts).filter
        (fun t => decide (t.name = n) && decide (t.number = 9999))).map keyT := by
    intro k
    constructor
    · intro hk
      obtain ⟨r, hrA, hrk⟩ := List.mem_map.1 hk
      have hrC : r ∈ canon keyM dtLe (merged_trans ts sl) := (List.mem_filter.1 hrA).1
      have hprops := (List.mem_filter.1 hrA).2
      simp only [Bool.and_eq_true, decide_eq_true_eq] at hprops
      obtain ⟨x, hxC, hxk, hxn, hxnum⟩ := kept_merged_row_number ts sl H2 H3 hrC hrk
      refine List.mem_map.2 ⟨x, List.mem_filter.2 ⟨hxC, ?_⟩, hxk⟩
      simp [hxn, hxnum, hprops.1, hprops.2]
    · intro hk
      obtain ⟨x, hxB, hxk⟩ := List.mem_map.1 hk
      have hxC : x ∈ df_latest ts := (List.mem_filter.1 hxB).1
      have hprops := (List.mem_filter.1 hxB).2
      simp only [Bool.and_eq_true, decide_eq_true_eq] at hprops
      obtain ⟨m, hmC, hmk, hmn, hmnum⟩ := kept_trans_row_number ts sl H2 H3 hxC hxk
      refine List.mem_map.2 ⟨m, List.mem_filter.2 ⟨hmC, ?_⟩, hmk⟩
      simp [hmn, hmnum, hprops.1, hprops.2]
  have hperm := (List.perm_ext_iff_of_nodup hAmap hBmap).2 hiff
  calc (((canon keyM dtLe (merged_trans ts sl)).filter
        (fun r => decide (r.name = n) && decide (r.number = 9999)))).length
      = ((((canon keyM dtLe (merged_trans ts sl)).filter
          (fun r => decide (r.name = n) && decide (r.number = 9999)))).map keyM).length :=
        (List.length_map _ _).symm
    _ = ((((canon keyT tsLe ts).filter
          (fun t => decide (t.name = n) && decide (t.number = 9999)))).map keyT).length :=
        hperm.length_eq
    _ = (((canon keyT tsLe ts).filter
          (fun t => decide (t.name = n) && decide (t.number = 9999)))).length :=
        List.length_map _ _

/-- Concrete check of the amended C7: an eligible member with one sentinel
row. -/
theorem claim_C7_witness :
    ("a" ∈ target_members [⟨"a", "TRUE", 1, "TRUE"⟩]) ∧
    (∀ r1 ∈ merged_trans [⟨"d", "s", "m", "a", 9999, 100, "t1"⟩] ([] : List Sched),
      ∀ r2 ∈ merged_trans [⟨"d", "s", "m", "a", 9999, 100, "t1"⟩] ([] : List Sched),
        keyM r1 = keyM r2 → r1.date = r2.date) ∧
    (∀ t1 ∈ ([⟨"d", "s", "m", "a", 9999, 100, "t1"⟩] : List Trans),
      ∀ t2 ∈ ([⟨"d", "s", "m", "a", 9999, 100, "t1"⟩] : List Trans),
        keyT t1 = keyT t2 → t1.timestamp = t2.timestamp → t1 = t2) ∧
    missedCount [⟨"d", "s", "m", "a", 9999, 100, "t1"⟩] ([] : List Sched)
        [⟨"a", "TRUE", 1, "TRUE"⟩] "a"
      = ((df_latest [⟨"d", "s", "m", "a", 9999, 100, "t1"⟩]).filter
          (fun t => t.name = "a" ∧ t.number = 9999)).length ∧
    missedCount [⟨"d", "s", "m", "a", 9999, 100, "t1"⟩] ([] : List Sched)
        [⟨"a", "TRUE", 1, "TRUE"⟩] "a" = 1 :=
  ⟨by decide, by decide, by decide,
    claim_C7_missed_draw_count [⟨"d", "s", "m", "a", 9999, 100, "t1"⟩] ([] : List Sched)
      [⟨"a", "TRUE", 1, "TRUE"⟩] "a" (by decide) (by decide) (by decide),
    by decide⟩

end JefOtokogi
